import Mathlib

/-!
# CPPEncrypt: `AESKey` and `AESEngine`

A shallow embedding of `include/AESEngine.h`.

* `AESKey` (the struct, its three constructors, `getType`, `getKey`,
  `getKeyLength`, `setInitVector` and the private `copyKey`) is translated
  from the header.
* `generateRandomSequence` and `BlockCipherMode` come from `CPPCrypto.h`,
  which is not part of the sources; they are modelled from the specification.
* `AESEngine::getOutputTextSize`, `encyrptText` and `decryptText` are only
  declared in the header; their bodies are modelled from the specification.
-/

namespace CPPEncrypt

/-! ## Data model of `AESKey` -/

/-- An `unsigned char`. -/
abbrev Byte := BitVec 8

/-- The `enum class AESKeyType` (header lines 11-15). -/
inductive AESKeyType where
  | AES_KEY128
  | AES_KEY196
  | AES_KEY256
  deriving DecidableEq, Repr

/-- Modelled from the spec: `BlockCipherMode` is declared in `CPPCrypto.h`, which is
missing from the sources; the specification lists the modes ECB and CBC. -/
inductive BlockCipherMode where
  | ECB
  | CBC
  deriving DecidableEq, Repr

/-- A caller-supplied `unsigned char*`, together with the extent of the object it
points to. -/
abbrev Buffer := List Byte

/-- The private members of `struct AESKey` (header lines 100-105): the key type and
the two 32-byte arrays `key` and `initVector`. -/
structure AESKey where
  type : AESKeyType
  key : Fin 32 → Byte
  initVector : Fin 32 → Byte

/-- The default member initialisers `key[32] = { 0 }` and `initVector[32] = { 0 }`
together with the constructors' member initialiser `type(type)`. -/
def AESKey.init (type : AESKeyType) : AESKey :=
  { type := type, key := fun _ => 0, initVector := fun _ => 0 }

/-- The call `memcpy(dst, data, n)` for a 32-byte destination array: the first `n`
bytes of `dst` are replaced by the first `n` bytes of `data`.  Reading past the end
of `data` (or writing past the array) has no defined result. -/
def memcpy (dst : Fin 32 → Byte) (data : Buffer) (n : Nat) : Option (Fin 32 → Byte) :=
  if n ≤ data.length ∧ n ≤ 32 then
    some (fun i => if i.val < n then data.getD i.val 0 else dst i)
  else
    none

/-- The private `AESKey::copyKey` (header lines 113-122): a `switch` over the type
with a `memcpy` into `this->key` for `AES_KEY128` and `AES_KEY256` and no case for
`AES_KEY196`. -/
def AESKey.copyKey (self : AESKey) (data : Buffer) (type : AESKeyType) : Option AESKey :=
  match type with
  | .AES_KEY128 => (memcpy self.key data 16).map (fun k => { self with key := k })
  | .AES_KEY256 => (memcpy self.key data 32).map (fun k => { self with key := k })
  | .AES_KEY196 => some self

/-- Modelled from the spec: `generateRandomSequence(buffer, length)` is declared in
`CPPCrypto.h`, which is missing from the sources.  By the RandomSource contract it
overwrites `buffer[0..length)` with the bytes the source delivers (`rnd i` is the
`i`-th of them) and leaves the rest of the buffer alone. -/
def generateRandomSequence (rnd : Nat → Byte) (buffer : Fin 32 → Byte) (length : Nat) :
    Fin 32 → Byte :=
  fun i => if i.val < length then rnd i.val else buffer i

/-- The member of `AESKey` a request for random bytes is written to. -/
inductive Member where
  | key
  | initVector
  deriving DecidableEq, Repr

/-- One call `generateRandomSequence((char*)target, length)`. -/
structure RandCall where
  target : Member
  length : Nat
  deriving DecidableEq, Repr

/-- The generating constructor `AESKey(AESKeyType type, BlockCipherMode mode)`
(header lines 25-39).  The result is the constructed key together with the calls of
`generateRandomSequence` it made, in order. -/
def AESKey.newRandom (rnd : Nat → Byte) (type : AESKeyType) (_mode : BlockCipherMode) :
    AESKey × List RandCall :=
  let self := AESKey.init type
  match type with
  | .AES_KEY128 =>
      ({ self with key := generateRandomSequence rnd self.key 16 }, [⟨.key, 16⟩])
  | .AES_KEY256 =>
      ({ self with key := generateRandomSequence rnd self.key 32 }, [⟨.key, 32⟩])
  | .AES_KEY196 => (self, [])

/-- The copy constructor `AESKey(const AESKey& cpy)` (header lines 45-49). -/
def AESKey.newCopy (cpy : AESKey) : Option AESKey :=
  (AESKey.init cpy.type).copyKey (List.ofFn cpy.key) cpy.type

/-- The constructor `AESKey(unsigned char* key, AESKeyType type)` (header lines
56-60). -/
def AESKey.newFromData (key : Buffer) (type : AESKeyType) : Option AESKey :=
  (AESKey.init type).copyKey key type

/-- The accessor `AESKey::getType` (header lines 65-67). -/
def AESKey.getType (self : AESKey) : AESKeyType := self.type

/-- The accessor `AESKey::getKey` (header lines 73-75). -/
def AESKey.getKey (self : AESKey) : Fin 32 → Byte := self.key

/-- The accessor `AESKey::getKeyLength` (header lines 80-89): 16 and 32 for the two
cases of the `switch`, and the trailing `return 0` otherwise. -/
def AESKey.getKeyLength (self : AESKey) : Nat :=
  match self.type with
  | .AES_KEY128 => 16
  | .AES_KEY256 => 32
  | .AES_KEY196 => 0

/-- The mutator `AESKey::setInitVector` (header lines 94-96): it calls
`copyKey(initVector, type)`. -/
def AESKey.setInitVector (self : AESKey) (initVector : Buffer) : Option AESKey :=
  self.copyKey initVector self.type

/-- The keys a program can hold: the result of one of the three constructors,
followed by any number of `setInitVector` calls (and further copies). -/
inductive Reachable : AESKey → Prop where
  | random (rnd : Nat → Byte) (type : AESKeyType) (mode : BlockCipherMode) :
      Reachable (AESKey.newRandom rnd type mode).1
  | fromData (d : Buffer) (type : AESKeyType) (k : AESKey) :
      AESKey.newFromData d type = some k → Reachable k
  | copy (k k' : AESKey) : Reachable k → AESKey.newCopy k = some k' → Reachable k'
  | setIV (k : AESKey) (v : Buffer) (k' : AESKey) :
      Reachable k → k.setInitVector v = some k' → Reachable k'

/-- Modelled from the spec: the `keyBytes` the KeySpec of sections 3 and 4.1 assigns
to a key-size variant (16, 24, 32); the sources have only `getKeyLength`. -/
def specKeyBytes : AESKeyType → Nat
  | .AES_KEY128 => 16
  | .AES_KEY196 => 24
  | .AES_KEY256 => 32

/-- A buffer of `n` bytes, each `0x00`. -/
def zerosBuffer (n : Nat) : Buffer := List.replicate n 0

/-- A buffer of `n` bytes, each `0x01`. -/
def onesBuffer (n : Nat) : Buffer := List.replicate n 1


/-! ## The cipher engine, modelled from the specification

`AESEngine::getOutputTextSize`, `AESEngine::encyrptText` and
`AESEngine::decryptText` are declared in the header (lines 145-155) and defined
nowhere in the sources.  What follows models them, and the round engine and key
data they rest on, from the specification's sections 3, 4 and 9. -/

/-- Modelled from the spec: the error taxonomy of section 7, which the sources do not
declare. -/
inductive CipherError where
  | InvalidKeySize
  | KeyLengthMismatch
  | IVLengthMismatch
  | InvalidCiphertextLength
  | PaddingError
  deriving DecidableEq, Repr

/-- Modelled from the spec: the `KeySpec` of section 3, absent from the sources: a
key-size variant (the header's `AESKeyType`) and a mode of operation. -/
structure KeySpec where
  sizeBits : AESKeyType
  mode : BlockCipherMode
  deriving DecidableEq, Repr

/-- Modelled from the spec: `KeySpec.keyBytes()` of section 4.1, absent from the
sources: 16, 24 or 32. -/
def KeySpec.keyBytes (s : KeySpec) : Nat := specKeyBytes s.sizeBits

/-- Modelled from the spec: `KeySpec.blockBytes()` of section 4.1, absent from the
sources: the constant 16. -/
def KeySpec.blockBytes (_s : KeySpec) : Nat := 16

/-- Modelled from the spec: the number of rounds of section 4.3, absent from the
sources: 10, 12 or 14 for 16, 24 or 32 key bytes. -/
def KeySpec.rounds (s : KeySpec) : Nat :=
  match s.sizeBits with
  | .AES_KEY128 => 10
  | .AES_KEY196 => 12
  | .AES_KEY256 => 14

/-- Modelled from the spec: the `CipherKey` of section 3, absent from the sources:
key material of exactly `keyBytes` bytes and an initialisation vector of exactly 16
bytes. -/
structure CipherKey where
  spec : KeySpec
  keyMaterial : List Byte
  iv : List Byte
  keyMaterial_length : keyMaterial.length = spec.keyBytes
  iv_length : iv.length = 16

/-- Modelled from the spec: the `CipherEngine` of section 3 (the header's
`AESEngine`, whose member functions have no body in the sources): it owns exactly
one key. -/
structure AESEngine where
  key : CipherKey

/-! ### The round engine -/

/-- Modelled from the spec: one 32-bit word of the cipher state or of the key
schedule, four bytes; the round engine is absent from the sources. -/
structure Column where
  r0 : Byte
  r1 : Byte
  r2 : Byte
  r3 : Byte
  deriving DecidableEq, Repr

/-- Modelled from the spec: the 16-byte block (section 3 and glossary), absent from
the sources, as four columns; byte `4 * c + r` of the block is row `r` of column
`c`. -/
structure Block where
  c0 : Column
  c1 : Column
  c2 : Column
  c3 : Column
  deriving DecidableEq, Repr

/-- Modelled from the spec: the all-zero word, used where the round engine (absent
from the sources) reads a word that is not there. -/
def Column.zero : Column := ⟨0, 0, 0, 0⟩

/-- Modelled from the spec: the four bytes of a buffer from offset `off` on, read as a
word; the round engine is absent from the sources. -/
def Column.ofList (l : List Byte) (off : Nat) : Column :=
  ⟨l.getD off 0, l.getD (off + 1) 0, l.getD (off + 2) 0, l.getD (off + 3) 0⟩

/-- Modelled from the spec: the four bytes of a word, in order; the round engine is
absent from the sources. -/
def Column.toList (c : Column) : List Byte := [c.r0, c.r1, c.r2, c.r3]

/-- Modelled from the spec: a function applied to each byte of a word; the round
engine is absent from the sources. -/
def Column.map (f : Byte → Byte) (c : Column) : Column := ⟨f c.r0, f c.r1, f c.r2, f c.r3⟩

/-- Modelled from the spec: the bytewise XOR of two words; the round engine is absent
from the sources. -/
def Column.xor (a b : Column) : Column :=
  ⟨a.r0 ^^^ b.r0, a.r1 ^^^ b.r1, a.r2 ^^^ b.r2, a.r3 ^^^ b.r3⟩

/-- Modelled from the spec: the first 16 bytes of a buffer read as a block; the
splitting into blocks of section 4.4 is absent from the sources. -/
def Block.ofList (l : List Byte) : Block :=
  ⟨Column.ofList l 0, Column.ofList l 4, Column.ofList l 8, Column.ofList l 12⟩

/-- Modelled from the spec: the 16 bytes of a block, in order; the assembling of the
output of section 4.4 is absent from the sources. -/
def Block.toList (b : Block) : List Byte :=
  b.c0.toList ++ b.c1.toList ++ b.c2.toList ++ b.c3.toList

/-- Modelled from the spec: a function applied to each byte of a block; the round
engine is absent from the sources. -/
def Block.map (f : Byte → Byte) (b : Block) : Block :=
  ⟨b.c0.map f, b.c1.map f, b.c2.map f, b.c3.map f⟩

/-- Modelled from the spec: the bytewise XOR of two blocks, used by AddRoundKey and by
the CBC chaining of section 4.4; absent from the sources. -/
def Block.xor (a b : Block) : Block :=
  ⟨a.c0.xor b.c0, a.c1.xor b.c1, a.c2.xor b.c2, a.c3.xor b.c3⟩

/-- Modelled from the spec: the S-box table of the standard (glossary: the fixed
nonlinear byte-substitution table used in SubBytes); absent from the sources. -/
def sboxTable : List Byte := [
    0x63, 0x7c, 0x77, 0x7b, 0xf2, 0x6b, 0x6f, 0xc5, 0x30, 0x01, 0x67, 0x2b, 0xfe, 0xd7, 0xab, 0x76,
    0xca, 0x82, 0xc9, 0x7d, 0xfa, 0x59, 0x47, 0xf0, 0xad, 0xd4, 0xa2, 0xaf, 0x9c, 0xa4, 0x72, 0xc0,
    0xb7, 0xfd, 0x93, 0x26, 0x36, 0x3f, 0xf7, 0xcc, 0x34, 0xa5, 0xe5, 0xf1, 0x71, 0xd8, 0x31, 0x15,
    0x04, 0xc7, 0x23, 0xc3, 0x18, 0x96, 0x05, 0x9a, 0x07, 0x12, 0x80, 0xe2, 0xeb, 0x27, 0xb2, 0x75,
    0x09, 0x83, 0x2c, 0x1a, 0x1b, 0x6e, 0x5a, 0xa0, 0x52, 0x3b, 0xd6, 0xb3, 0x29, 0xe3, 0x2f, 0x84,
    0x53, 0xd1, 0x00, 0xed, 0x20, 0xfc, 0xb1, 0x5b, 0x6a, 0xcb, 0xbe, 0x39, 0x4a, 0x4c, 0x58, 0xcf,
    0xd0, 0xef, 0xaa, 0xfb, 0x43, 0x4d, 0x33, 0x85, 0x45, 0xf9, 0x02, 0x7f, 0x50, 0x3c, 0x9f, 0xa8,
    0x51, 0xa3, 0x40, 0x8f, 0x92, 0x9d, 0x38, 0xf5, 0xbc, 0xb6, 0xda, 0x21, 0x10, 0xff, 0xf3, 0xd2,
    0xcd, 0x0c, 0x13, 0xec, 0x5f, 0x97, 0x44, 0x17, 0xc4, 0xa7, 0x7e, 0x3d, 0x64, 0x5d, 0x19, 0x73,
    0x60, 0x81, 0x4f, 0xdc, 0x22, 0x2a, 0x90, 0x88, 0x46, 0xee, 0xb8, 0x14, 0xde, 0x5e, 0x0b, 0xdb,
    0xe0, 0x32, 0x3a, 0x0a, 0x49, 0x06, 0x24, 0x5c, 0xc2, 0xd3, 0xac, 0x62, 0x91, 0x95, 0xe4, 0x79,
    0xe7, 0xc8, 0x37, 0x6d, 0x8d, 0xd5, 0x4e, 0xa9, 0x6c, 0x56, 0xf4, 0xea, 0x65, 0x7a, 0xae, 0x08,
    0xba, 0x78, 0x25, 0x2e, 0x1c, 0xa6, 0xb4, 0xc6, 0xe8, 0xdd, 0x74, 0x1f, 0x4b, 0xbd, 0x8b, 0x8a,
    0x70, 0x3e, 0xb5, 0x66, 0x48, 0x03, 0xf6, 0x0e, 0x61, 0x35, 0x57, 0xb9, 0x86, 0xc1, 0x1d, 0x9e,
    0xe1, 0xf8, 0x98, 0x11, 0x69, 0xd9, 0x8e, 0x94, 0x9b, 0x1e, 0x87, 0xe9, 0xce, 0x55, 0x28, 0xdf,
    0x8c, 0xa1, 0x89, 0x0d, 0xbf, 0xe6, 0x42, 0x68, 0x41, 0x99, 0x2d, 0x0f, 0xb0, 0x54, 0xbb, 0x16]

/-- Modelled from the spec: the inverse S-box table of the standard, used in
InvSubBytes; absent from the sources. -/
def invSboxTable : List Byte := [
    0x52, 0x09, 0x6a, 0xd5, 0x30, 0x36, 0xa5, 0x38, 0xbf, 0x40, 0xa3, 0x9e, 0x81, 0xf3, 0xd7, 0xfb,
    0x7c, 0xe3, 0x39, 0x82, 0x9b, 0x2f, 0xff, 0x87, 0x34, 0x8e, 0x43, 0x44, 0xc4, 0xde, 0xe9, 0xcb,
    0x54, 0x7b, 0x94, 0x32, 0xa6, 0xc2, 0x23, 0x3d, 0xee, 0x4c, 0x95, 0x0b, 0x42, 0xfa, 0xc3, 0x4e,
    0x08, 0x2e, 0xa1, 0x66, 0x28, 0xd9, 0x24, 0xb2, 0x76, 0x5b, 0xa2, 0x49, 0x6d, 0x8b, 0xd1, 0x25,
    0x72, 0xf8, 0xf6, 0x64, 0x86, 0x68, 0x98, 0x16, 0xd4, 0xa4, 0x5c, 0xcc, 0x5d, 0x65, 0xb6, 0x92,
    0x6c, 0x70, 0x48, 0x50, 0xfd, 0xed, 0xb9, 0xda, 0x5e, 0x15, 0x46, 0x57, 0xa7, 0x8d, 0x9d, 0x84,
    0x90, 0xd8, 0xab, 0x00, 0x8c, 0xbc, 0xd3, 0x0a, 0xf7, 0xe4, 0x58, 0x05, 0xb8, 0xb3, 0x45, 0x06,
    0xd0, 0x2c, 0x1e, 0x8f, 0xca, 0x3f, 0x0f, 0x02, 0xc1, 0xaf, 0xbd, 0x03, 0x01, 0x13, 0x8a, 0x6b,
    0x3a, 0x91, 0x11, 0x41, 0x4f, 0x67, 0xdc, 0xea, 0x97, 0xf2, 0xcf, 0xce, 0xf0, 0xb4, 0xe6, 0x73,
    0x96, 0xac, 0x74, 0x22, 0xe7, 0xad, 0x35, 0x85, 0xe2, 0xf9, 0x37, 0xe8, 0x1c, 0x75, 0xdf, 0x6e,
    0x47, 0xf1, 0x1a, 0x71, 0x1d, 0x29, 0xc5, 0x89, 0x6f, 0xb7, 0x62, 0x0e, 0xaa, 0x18, 0xbe, 0x1b,
    0xfc, 0x56, 0x3e, 0x4b, 0xc6, 0xd2, 0x79, 0x20, 0x9a, 0xdb, 0xc0, 0xfe, 0x78, 0xcd, 0x5a, 0xf4,
    0x1f, 0xdd, 0xa8, 0x33, 0x88, 0x07, 0xc7, 0x31, 0xb1, 0x12, 0x10, 0x59, 0x27, 0x80, 0xec, 0x5f,
    0x60, 0x51, 0x7f, 0xa9, 0x19, 0xb5, 0x4a, 0x0d, 0x2d, 0xe5, 0x7a, 0x9f, 0x93, 0xc9, 0x9c, 0xef,
    0xa0, 0xe0, 0x3b, 0x4d, 0xae, 0x2a, 0xf5, 0xb0, 0xc8, 0xeb, 0xbb, 0x3c, 0x83, 0x53, 0x99, 0x61,
    0x17, 0x2b, 0x04, 0x7e, 0xba, 0x77, 0xd6, 0x26, 0xe1, 0x69, 0x14, 0x63, 0x55, 0x21, 0x0c, 0x7d]

/-- Modelled from the spec: the S-box substitution of one byte; absent from the
sources. -/
def sbox (b : Byte) : Byte := sboxTable.getD b.toNat 0

/-- Modelled from the spec: the inverse S-box substitution of one byte; absent from
the sources. -/
def invSbox (b : Byte) : Byte := invSboxTable.getD b.toNat 0

/-- Modelled from the spec: multiplication by `x` in the field of the standard (shift
left and reduce by `0x1b` when the top bit was set); the diffusion step of the round
engine is absent from the sources. -/
def xtime (a : Byte) : Byte := (a <<< 1) ^^^ (if a.msb then 0x1b#8 else 0#8)

/-- Modelled from the spec: the loop of the field multiplication of the standard: for
each of the low `n` bits of `c`, add `a` when the bit is set, then double `a`; absent
from the sources. -/
def gmulAux : Nat → Byte → Byte → Byte → Byte
  | 0, _, _, acc => acc
  | n + 1, c, a, acc =>
      gmulAux n (c >>> 1) (xtime a) (if c.getLsbD 0 then acc ^^^ a else acc)

/-- Modelled from the spec: the product `c * a` in the field of the standard, used by
MixColumns and InvMixColumns; absent from the sources. -/
def gmul (c a : Byte) : Byte := gmulAux 8 c a 0

/-- Modelled from the spec: SubBytes of section 4.3; absent from the sources. -/
def subBytes (s : Block) : Block := s.map sbox

/-- Modelled from the spec: InvSubBytes of section 4.3; absent from the sources. -/
def invSubBytes (s : Block) : Block := s.map invSbox

/-- Modelled from the spec: ShiftRows of section 4.3 (row `r` of the state is rotated
left by `r` columns); absent from the sources. -/
def shiftRows (s : Block) : Block :=
  ⟨⟨s.c0.r0, s.c1.r1, s.c2.r2, s.c3.r3⟩,
   ⟨s.c1.r0, s.c2.r1, s.c3.r2, s.c0.r3⟩,
   ⟨s.c2.r0, s.c3.r1, s.c0.r2, s.c1.r3⟩,
   ⟨s.c3.r0, s.c0.r1, s.c1.r2, s.c2.r3⟩⟩

/-- Modelled from the spec: InvShiftRows of section 4.3 (row `r` of the state is
rotated right by `r` columns); absent from the sources. -/
def invShiftRows (s : Block) : Block :=
  ⟨⟨s.c0.r0, s.c3.r1, s.c2.r2, s.c1.r3⟩,
   ⟨s.c1.r0, s.c0.r1, s.c3.r2, s.c2.r3⟩,
   ⟨s.c2.r0, s.c1.r1, s.c0.r2, s.c3.r3⟩,
   ⟨s.c3.r0, s.c2.r1, s.c1.r2, s.c0.r3⟩⟩

/-- Modelled from the spec: MixColumns of section 4.3 on one column (the matrix with
rows `02 03 01 01` rotated); absent from the sources. -/
def mixColumn (c : Column) : Column :=
  ⟨gmul 2 c.r0 ^^^ gmul 3 c.r1 ^^^ c.r2 ^^^ c.r3,
   gmul 2 c.r1 ^^^ gmul 3 c.r2 ^^^ c.r3 ^^^ c.r0,
   gmul 2 c.r2 ^^^ gmul 3 c.r3 ^^^ c.r0 ^^^ c.r1,
   gmul 2 c.r3 ^^^ gmul 3 c.r0 ^^^ c.r1 ^^^ c.r2⟩

/-- Modelled from the spec: InvMixColumns of section 4.3 on one column (the matrix
with rows `0e 0b 0d 09` rotated); absent from the sources. -/
def invMixColumn (c : Column) : Column :=
  ⟨gmul 14 c.r0 ^^^ gmul 11 c.r1 ^^^ gmul 13 c.r2 ^^^ gmul 9 c.r3,
   gmul 14 c.r1 ^^^ gmul 11 c.r2 ^^^ gmul 13 c.r3 ^^^ gmul 9 c.r0,
   gmul 14 c.r2 ^^^ gmul 11 c.r3 ^^^ gmul 13 c.r0 ^^^ gmul 9 c.r1,
   gmul 14 c.r3 ^^^ gmul 11 c.r0 ^^^ gmul 13 c.r1 ^^^ gmul 9 c.r2⟩

/-- Modelled from the spec: MixColumns of section 4.3; absent from the sources. -/
def mixColumns (s : Block) : Block :=
  ⟨mixColumn s.c0, mixColumn s.c1, mixColumn s.c2, mixColumn s.c3⟩

/-- Modelled from the spec: InvMixColumns of section 4.3; absent from the sources. -/
def invMixColumns (s : Block) : Block :=
  ⟨invMixColumn s.c0, invMixColumn s.c1, invMixColumn s.c2, invMixColumn s.c3⟩

/-- Modelled from the spec: AddRoundKey of section 4.3; absent from the sources. -/
def addRoundKey (s k : Block) : Block := s.xor k

/-- Modelled from the spec: the round constants of the key schedule of the standard
(section 4.3: round-constant XOR on word boundaries); absent from the sources. -/
def rcon : List Byte := [0x01, 0x02, 0x04, 0x08, 0x10, 0x20, 0x40, 0x80, 0x1b, 0x36]

/-- Modelled from the spec: the byte rotation of the key schedule (section 4.3);
absent from the sources. -/
def rotWord (w : Column) : Column := ⟨w.r1, w.r2, w.r3, w.r0⟩

/-- Modelled from the spec: the S-box substitution of the key schedule (section 4.3);
absent from the sources. -/
def subWord (w : Column) : Column := w.map sbox

/-- Modelled from the spec: one step of the key-schedule recurrence of section 4.3:
the word that follows the words `w`, for a key of `nk` words; absent from the
sources. -/
def nextWord (nk : Nat) (w : List Column) : Column :=
  let i := w.length
  let temp := w.getD (i - 1) Column.zero
  let temp :=
    if i % nk = 0 then
      (subWord (rotWord temp)).xor ⟨rcon.getD (i / nk - 1) 0, 0, 0, 0⟩
    else if 6 < nk ∧ i % nk = 4 then
      subWord temp
    else
      temp
  (w.getD (i - nk) Column.zero).xor temp

/-- Modelled from the spec: `n` steps of the key-schedule recurrence of section 4.3;
absent from the sources. -/
def expandWords : Nat → Nat → List Column → List Column
  | 0, _, w => w
  | n + 1, nk, w => expandWords n nk (w ++ [nextWord nk w])

/-- Modelled from the spec: `expandKey` of section 4.3, absent from the sources: the
`rounds + 1` round keys of 128 bits derived from the key material. -/
def expandKey (spec : KeySpec) (keyMaterial : List Byte) : List Block :=
  let nk := spec.keyBytes / 4
  let seed := (List.range nk).map (fun i => Column.ofList keyMaterial (4 * i))
  let w := expandWords (4 * (spec.rounds + 1) - nk) nk seed
  (List.range (spec.rounds + 1)).map (fun i =>
    ⟨w.getD (4 * i) Column.zero, w.getD (4 * i + 1) Column.zero,
     w.getD (4 * i + 2) Column.zero, w.getD (4 * i + 3) Column.zero⟩)

/-- Modelled from the spec: the rounds of `encryptBlock` (section 4.3) after the
initial AddRoundKey, one per remaining round key: SubBytes, ShiftRows, MixColumns,
AddRoundKey for the middle rounds and SubBytes, ShiftRows, AddRoundKey for the final
one; absent from the sources. -/
def encryptRounds : Block → List Block → Block
  | s, [] => s
  | s, [k] => addRoundKey (shiftRows (subBytes s)) k
  | s, k :: k' :: ks =>
      encryptRounds (addRoundKey (mixColumns (shiftRows (subBytes s))) k) (k' :: ks)

/-- Modelled from the spec: `encryptBlock` of section 4.3, absent from the sources. -/
def encryptBlock (plainBlock : Block) (schedule : List Block) : Block :=
  match schedule with
  | [] => plainBlock
  | k0 :: ks => encryptRounds (addRoundKey plainBlock k0) ks

/-- Modelled from the spec: the rounds of `decryptBlock` (section 4.3), undoing the
rounds of `encryptBlock` in reverse order with AddRoundKey, InvMixColumns,
InvShiftRows and InvSubBytes; absent from the sources. -/
def decryptRounds : Block → List Block → Block
  | s, [] => s
  | s, [k] => invSubBytes (invShiftRows (addRoundKey s k))
  | s, k :: k' :: ks =>
      invSubBytes (invShiftRows (invMixColumns (addRoundKey (decryptRounds s (k' :: ks)) k)))

/-- Modelled from the spec: `decryptBlock` of section 4.3, absent from the sources. -/
def decryptBlock (cipherBlock : Block) (schedule : List Block) : Block :=
  match schedule with
  | [] => cipherBlock
  | k0 :: ks => addRoundKey (decryptRounds cipherBlock ks) k0

/-! ### The cipher engine -/

/-- Modelled from the spec: the first `n` 16-byte blocks of a buffer (section 4.4:
splits into 16-byte blocks); absent from the sources. -/
def toBlocks : Nat → List Byte → List Block
  | 0, _ => []
  | n + 1, l => Block.ofList l :: toBlocks n (l.drop 16)

/-- Modelled from the spec: the bytes of a sequence of blocks (section 4.4: assembles
the output); absent from the sources. -/
def fromBlocks : List Block → List Byte
  | [] => []
  | b :: bs => b.toList ++ fromBlocks bs

/-- Modelled from the spec: the number of pad bytes of section 4.4, at least one and at
most 16, that brings a text of `n` bytes to a multiple of 16; absent from the
sources. -/
def padLength (n : Nat) : Nat := 16 - n % 16

/-- Modelled from the spec: the byte padding of section 4.4 (every pad byte's value
equals the number of pad bytes appended); absent from the sources. -/
def pad (plainText : List Byte) : List Byte :=
  plainText ++ List.replicate (padLength plainText.length)
    (BitVec.ofNat 8 (padLength plainText.length))

/-- Modelled from the spec: the stripping and validation of the padding of section 4.4
(`PaddingError` if the trailing pad-byte value is 0, exceeds 16, or the corresponding
trailing bytes are not all equal to that value); absent from the sources. -/
def unpad (text : List Byte) : Except CipherError (List Byte) :=
  match text.getLast? with
  | none => .error .PaddingError
  | some v =>
      if v.toNat = 0 ∨ 16 < v.toNat then
        .error .PaddingError
      else if (text.drop (text.length - v.toNat)).all (fun b => b == v) then
        .ok (text.take (text.length - v.toNat))
      else
        .error .PaddingError

/-- Modelled from the spec: the CBC combination of section 4.4 (block `i` is XORed with
the previous ciphertext block, or the `iv` for block 0, before `encryptBlock`); absent
from the sources. -/
def cbcEncrypt (schedule : List Block) : Block → List Block → List Block
  | _, [] => []
  | prev, b :: bs =>
      let c := encryptBlock (b.xor prev) schedule
      c :: cbcEncrypt schedule c bs

/-- Modelled from the spec: the inverse of the CBC combination of section 4.4; absent
from the sources. -/
def cbcDecrypt (schedule : List Block) : Block → List Block → List Block
  | _, [] => []
  | prev, c :: cs => (decryptBlock c schedule).xor prev :: cbcDecrypt schedule c cs

/-- Modelled from the spec: `ceil_to_block` of section 4.4, absent from the sources:
the least multiple of the block size 16 that is at least `n` (for `n` from 0 on, where
the division is that of C). -/
def ceilToBlock (n : Int) : Int := (n + 15) / 16 * 16

/-- Modelled from the spec: `outputTextSize` of section 4.4, the header's
`int AESEngine::getOutputTextSize(int textSize)` (line 145), whose body is absent from
the sources: `ceil_to_block(plainTextSize + 1)`, over the integers. -/
def AESEngine.getOutputTextSize (_self : AESEngine) (textSize : Int) : Int :=
  ceilToBlock (textSize + 1)

/-- Modelled from the spec: `encrypt` of section 4.4, the header's
`AESEngine::encyrptText` (line 150), whose body is absent from the sources: pad, split
into 16-byte blocks, combine per the configured mode.  The plaintext pointer and its
size are the list of the plaintext bytes; the result is the bytes written to the
ciphertext buffer. -/
def AESEngine.encyrptText (self : AESEngine) (plainText : List Byte) : List Byte :=
  let schedule := expandKey self.key.spec self.key.keyMaterial
  let padded := pad plainText
  let blocks := toBlocks (padded.length / 16) padded
  match self.key.spec.mode with
  | .ECB => fromBlocks (blocks.map (fun b => encryptBlock b schedule))
  | .CBC => fromBlocks (cbcEncrypt schedule (Block.ofList self.key.iv) blocks)

/-- Modelled from the spec: `decrypt` of section 4.4, the header's
`AESEngine::decryptText` (line 155), whose body is absent from the sources: the
ciphertext size must be a positive multiple of 16, then the inverse per-mode
combination, then the padding is stripped and validated. -/
def AESEngine.decryptText (self : AESEngine) (cipherText : List Byte) :
    Except CipherError (List Byte) :=
  if cipherText.length = 0 ∨ cipherText.length % 16 ≠ 0 then
    .error .InvalidCiphertextLength
  else
    let schedule := expandKey self.key.spec self.key.keyMaterial
    let blocks := toBlocks (cipherText.length / 16) cipherText
    match self.key.spec.mode with
    | .ECB => unpad (fromBlocks (blocks.map (fun b => decryptBlock b schedule)))
    | .CBC => unpad (fromBlocks (cbcDecrypt schedule (Block.ofList self.key.iv) blocks))

/-- The bytes `0, 1, ..., n - 1`, the key material of the standard's example
vectors. -/
def countingBytes (n : Nat) : List Byte := (List.range n).map (BitVec.ofNat 8)

/-- The plaintext block `00112233445566778899aabbccddeeff` of the standard's example
vectors. -/
def examplePlainBlock : Block :=
  ⟨⟨0x00, 0x11, 0x22, 0x33⟩, ⟨0x44, 0x55, 0x66, 0x77⟩,
   ⟨0x88, 0x99, 0xaa, 0xbb⟩, ⟨0xcc, 0xdd, 0xee, 0xff⟩⟩

/-- An engine with the 128-bit key `000102...0f` and the all-zero initialisation
vector, in the given mode. -/
def exampleEngine (mode : BlockCipherMode) : AESEngine :=
  ⟨⟨⟨.AES_KEY128, mode⟩, countingBytes 16, List.replicate 16 0, rfl, rfl⟩⟩

/-! ## Theorems about `AESKey` -/

theorem memcpy_eq_some {dst : Fin 32 → Byte} {data : Buffer} {n : Nat} {r : Fin 32 → Byte}
    (h : memcpy dst data n = some r) :
    n ≤ data.length ∧ n ≤ 32 ∧ r = fun i => if i.val < n then data.getD i.val 0 else dst i := by
  unfold memcpy at h
  split at h
  · rename_i hc
    simp only [Option.some.injEq] at h
    exact ⟨hc.1, hc.2, h.symm⟩
  · simp at h

/-- What `copyKey` does when it returns: the type and the initialisation vector are
kept, and the key array is overwritten in its first 16 (resp. 32, resp. 0) bytes. -/
theorem copyKey_eq_some {self : AESKey} {data : Buffer} {t : AESKeyType} {k : AESKey}
    (h : self.copyKey data t = some k) :
    k.type = self.type ∧ k.initVector = self.initVector ∧
      ∃ n : Nat, (t = .AES_KEY128 ∧ n = 16 ∨ t = .AES_KEY256 ∧ n = 32 ∨ t = .AES_KEY196 ∧ n = 0) ∧
        n ≤ data.length ∧
        k.key = fun i => if i.val < n then data.getD i.val 0 else self.key i := by
  cases t
  · simp only [AESKey.copyKey, Option.map_eq_some'] at h
    obtain ⟨r, hr, rfl⟩ := h
    obtain ⟨h1, _, h3⟩ := memcpy_eq_some hr
    exact ⟨rfl, rfl, 16, by simp, h1, h3⟩
  · simp only [AESKey.copyKey, Option.some.injEq] at h
    subst h
    exact ⟨rfl, rfl, 0, by simp, by simp, by funext i; simp⟩
  · simp only [AESKey.copyKey, Option.map_eq_some'] at h
    obtain ⟨r, hr, rfl⟩ := h
    obtain ⟨h1, _, h3⟩ := memcpy_eq_some hr
    exact ⟨rfl, rfl, 32, by simp, h1, h3⟩

/-- The invariant of every reachable key: the key array is zero from index
`getKeyLength()` on, and the `initVector` array is zero everywhere. -/
theorem reachable_invariant {k : AESKey} (h : Reachable k) :
    (∀ i : Fin 32, k.getKeyLength ≤ i.val → k.key i = 0) ∧ (∀ i : Fin 32, k.initVector i = 0) := by
  induction h with
  | random rnd type mode =>
    cases type
    · simp only [AESKey.newRandom, AESKey.init, AESKey.getKeyLength, generateRandomSequence,
        implies_true, and_true]
      intro i hi
      rw [if_neg (by omega)]
    · simp [AESKey.newRandom, AESKey.init]
    · simp only [AESKey.newRandom, AESKey.init, AESKey.getKeyLength, generateRandomSequence,
        implies_true, and_true]
      intro i hi
      omega
  | fromData d type k hk =>
    obtain ⟨ht, hiv, n, hn, _, hkey⟩ := copyKey_eq_some hk
    refine ⟨?_, ?_⟩
    · intro i hi
      rw [hkey]
      simp only [AESKey.getKeyLength, ht, AESKey.init] at hi ⊢
      rcases hn with ⟨rfl, rfl⟩ | ⟨rfl, rfl⟩ | ⟨rfl, rfl⟩ <;> simp at hi ⊢ <;> omega
    · intro i
      rw [hiv]
      rfl
  | copy k k' _ hk ih =>
    obtain ⟨ht, hiv, n, hn, _, hkey⟩ := copyKey_eq_some hk
    refine ⟨?_, ?_⟩
    · intro i hi
      rw [hkey]
      simp only [AESKey.getKeyLength, ht, AESKey.init] at hi ⊢
      rcases hn with ⟨h1, rfl⟩ | ⟨h1, rfl⟩ | ⟨h1, rfl⟩ <;> simp [h1] at hi ⊢ <;> omega
    · intro i
      rw [hiv]
      rfl
  | setIV k v k' _ hk ih =>
    obtain ⟨ht, hiv, n, hn, _, hkey⟩ := copyKey_eq_some hk
    refine ⟨?_, ?_⟩
    · intro i hi
      rw [hkey]
      have ih1 := ih.1 i
      simp only [AESKey.getKeyLength, ht] at hi ih1 ⊢
      rcases hn with ⟨h1, rfl⟩ | ⟨h1, rfl⟩ | ⟨h1, rfl⟩ <;> simp only [h1] at hi ih1 ⊢
      · rw [if_neg (by omega)]
        exact ih1 hi
      · omega
      · rw [if_neg (by omega)]
        exact ih1 hi
    · intro i
      rw [hiv]
      exact ih.2 i

/-- What `setInitVector` does to a 128-bit key: the first 16 bytes of the KEY array
become the bytes of the supplied buffer and the `initVector` array is untouched. -/
theorem setInitVector_128 {k k' : AESKey} {v : Buffer} (ht : k.type = .AES_KEY128)
    (h : k.setInitVector v = some k') :
    (∀ i : Fin 32, i.val < 16 → k'.key i = v.getD i.val 0) ∧ k'.initVector = k.initVector := by
  obtain ⟨_, hiv, n, hn, _, hkey⟩ := copyKey_eq_some h
  refine ⟨?_, hiv⟩
  intro i hi
  rw [hkey]
  rcases hn with ⟨_, rfl⟩ | ⟨h1, _⟩ | ⟨h1, _⟩
  · exact if_pos hi
  · rw [ht] at h1; cases h1
  · rw [ht] at h1; cases h1

/-- For `AES_KEY128` and `AES_KEY256` the constructor from bytes does copy: given a
buffer of at least 16 resp. 32 bytes it returns a key of the requested type whose
first 16 resp. 32 key bytes are those of the buffer. -/
theorem newFromData_copies (d : Buffer) (t : AESKeyType) (ht : t ≠ .AES_KEY196)
    (hd : specKeyBytes t ≤ d.length) :
    ∃ k : AESKey, AESKey.newFromData d t = some k ∧ k.getType = t ∧
      ∀ i : Fin 32, i.val < specKeyBytes t → k.getKey i = d.getD i.val 0 := by
  cases t
  · simp only [specKeyBytes] at hd
    refine ⟨⟨.AES_KEY128, fun i => if i.val < 16 then d.getD i.val 0 else 0, fun _ => 0⟩,
      ?_, rfl, ?_⟩
    · simp only [AESKey.newFromData, AESKey.copyKey, memcpy, AESKey.init]
      rw [if_pos ⟨hd, by decide⟩]
      rfl
    · intro i hi
      exact if_pos hi
  · exact absurd rfl ht
  · simp only [specKeyBytes] at hd
    refine ⟨⟨.AES_KEY256, fun i => if i.val < 32 then d.getD i.val 0 else 0, fun _ => 0⟩,
      ?_, rfl, ?_⟩
    · simp only [AESKey.newFromData, AESKey.copyKey, memcpy, AESKey.init]
      rw [if_pos ⟨hd, by decide⟩]
      rfl
    · intro i hi
      exact if_pos hi

/-- C1 (the code departs from the claim): build a 128-bit key from sixteen `0x00`
bytes and call `setInitVector` with sixteen `0x01` bytes.  The first byte of
`getKey()` is `0x00` before the call and `0x01` after it: the call overwrote the key
material.  The key type is unchanged. -/
theorem C1_setInitVector_overwrites_key :
    (AESKey.newFromData (zerosBuffer 16) .AES_KEY128).bind (fun k =>
        (k.setInitVector (onesBuffer 16)).map (fun k' =>
          (k.getKey 0, k'.getKey 0, k.getType, k'.getType))) =
      some (0, 1, .AES_KEY128, .AES_KEY128) := by
  rfl

/-- C2 (the code departs from the claim): `getKeyLength()` is 16 for `AES_KEY128`
and 32 for `AES_KEY256`, but for `AES_KEY196` it is 0, not 24. -/
theorem C2_getKeyLength_values (key iv : Fin 32 → Byte) :
    AESKey.getKeyLength ⟨.AES_KEY128, key, iv⟩ = 16 ∧
      AESKey.getKeyLength ⟨.AES_KEY256, key, iv⟩ = 32 ∧
      AESKey.getKeyLength ⟨.AES_KEY196, key, iv⟩ = 0 ∧
      AESKey.getKeyLength ⟨.AES_KEY196, key, iv⟩ ≠ specKeyBytes .AES_KEY196 := by
  refine ⟨rfl, rfl, rfl, ?_⟩
  simp [AESKey.getKeyLength, specKeyBytes]

/-- C3 (the code departs from the claim): built from a buffer of 24 bytes `0x01`
with type `AES_KEY196`, the key has all-zero key material: its first byte is `0x00`
while the first byte of the buffer is `0x01`.  For `AES_KEY196` the constructor
ignores the buffer altogether. -/
theorem C3_newFromData_196_ignores_data :
    (AESKey.newFromData (onesBuffer 24) .AES_KEY196).map (fun k => k.getKey 0) = some 0 ∧
      (onesBuffer 24).getD 0 0 = 1 ∧ specKeyBytes .AES_KEY196 ≤ (onesBuffer 24).length ∧
      ∀ d : Buffer, AESKey.newFromData d .AES_KEY196 = some (AESKey.init .AES_KEY196) := by
  refine ⟨rfl, rfl, by decide, fun d => rfl⟩

/-- C4 (the code departs from the claim): build a 128-bit key from sixteen `0x00`
bytes and call `setInitVector` with sixteen `0x01` bytes.  Afterwards the first byte
of `initVector` is still `0x00` and the first byte of the key array is `0x01`: the
bytes went to the key.  On a 256-bit key the same call reads 32 bytes from the
16-byte buffer and has no defined result. -/
theorem C4_setInitVector_leaves_initVector :
    (AESKey.newFromData (zerosBuffer 16) .AES_KEY128).bind (fun k =>
        (k.setInitVector (onesBuffer 16)).map (fun k' =>
          (k'.initVector 0, k'.getKey 0, (onesBuffer 16).getD 0 0))) = some (0, 1, 1) ∧
      (AESKey.newFromData (zerosBuffer 32) .AES_KEY256).bind (fun k =>
        k.setInitVector (onesBuffer 16)) = none := by
  constructor <;> rfl

/-- C5: the copy constructor applied to a reachable key returns a key with the same
type, the same 32 key bytes and the same 32 initialisation-vector bytes. -/
theorem C5_copy_is_deep_copy (k : AESKey) (h : Reachable k) :
    ∃ c : AESKey, AESKey.newCopy k = some c ∧ c.getType = k.getType ∧
      (∀ i : Fin 32, c.getKey i = k.getKey i) ∧
      (∀ i : Fin 32, c.initVector i = k.initVector i) := by
  obtain ⟨hkey, hiv⟩ := reachable_invariant h
  have hlen : (List.ofFn k.key).length = 32 := List.length_ofFn _
  have hget : ∀ i : Fin 32, (List.ofFn k.key).getD i.val 0 = k.key i := by
    intro i
    rw [List.getD_eq_getElem _ _ (by rw [hlen]; exact i.isLt)]
    simp only [List.getElem_ofFn]
  rcases hk : k with ⟨t, key, iv⟩
  subst hk
  cases t
  · refine ⟨⟨.AES_KEY128, fun i => if i.val < 16 then (List.ofFn key).getD i.val 0 else 0, fun _ => 0⟩,
      ?_, rfl, ?_, ?_⟩
    · simp only [AESKey.newCopy, AESKey.copyKey, memcpy, AESKey.init, hlen]
      simp
    · intro i
      simp only [AESKey.getKey]
      split
      · exact hget i
      · exact (hkey i (by simp only [AESKey.getKeyLength]; omega)).symm
    · intro i
      exact (hiv i).symm
  · refine ⟨⟨.AES_KEY196, fun _ => 0, fun _ => 0⟩, rfl, rfl, ?_, ?_⟩
    · intro i
      exact (hkey i (by simp [AESKey.getKeyLength])).symm
    · intro i
      exact (hiv i).symm
  · refine ⟨⟨.AES_KEY256, fun i => if i.val < 32 then (List.ofFn key).getD i.val 0 else 0, fun _ => 0⟩,
      ?_, rfl, ?_, ?_⟩
    · simp only [AESKey.newCopy, AESKey.copyKey, memcpy, AESKey.init, hlen]
      simp
    · intro i
      simp only [AESKey.getKey]
      rw [if_pos i.isLt]
      exact hget i
    · intro i
      exact (hiv i).symm

/-- A reachable 128-bit key: generated from the random source that delivers `0x01`
bytes, then given an initialisation vector of sixteen `0x02` bytes. -/
theorem reachable_example :
    Reachable ⟨.AES_KEY128, fun i => if i.val < 16 then 2 else 0, fun _ => 0⟩ := by
  refine Reachable.setIV (AESKey.newRandom (fun _ => 1) .AES_KEY128 .ECB).1
    (List.replicate 16 2) _ (Reachable.random _ _ _) ?_
  simp only [AESKey.setInitVector, AESKey.newRandom, AESKey.copyKey, memcpy, AESKey.init,
    List.length_replicate]
  simp only [Nat.le_refl, Nat.reduceLeDiff, and_self, ↓reduceIte, Option.map_some',
    Option.some.injEq, AESKey.mk.injEq, true_and, and_true]
  funext i
  split
  · rename_i hi
    rw [List.getD_eq_getElem _ _ (by rw [List.length_replicate]; exact hi)]
    exact List.getElem_replicate _ _
  · rename_i hi
    simp only [generateRandomSequence, if_neg hi]

/-- Witness for C5 at the key of `reachable_example`. -/
theorem C5_copy_is_deep_copy_witness :
    Reachable ⟨.AES_KEY128, fun i => if i.val < 16 then 2 else 0, fun _ => 0⟩ ∧
    ∃ c : AESKey,
      AESKey.newCopy ⟨.AES_KEY128, fun i => if i.val < 16 then 2 else 0, fun _ => 0⟩ = some c ∧
      c.getType = AESKeyType.AES_KEY128 ∧
      (∀ i : Fin 32, c.getKey i = if i.val < 16 then 2 else 0) ∧
      (∀ i : Fin 32, c.initVector i = 0) :=
  ⟨reachable_example, C5_copy_is_deep_copy _ reachable_example⟩

/-- C6 (counterexample): for `AES_KEY128` and the random source that delivers `0x01`
bytes, the generating constructor makes the single request of 16 bytes into the key;
no request of 16 bytes into the initialisation vector is among its requests, and
the initialisation vector is all zero afterwards. -/
theorem C6_no_initVector_request :
    (AESKey.newRandom (fun _ => 1) .AES_KEY128 .ECB).2 = [⟨.key, 16⟩] ∧
      ¬ (⟨.initVector, 16⟩ ∈ (AESKey.newRandom (fun _ => 1) .AES_KEY128 .ECB).2) ∧
      ∀ i : Fin 32, (AESKey.newRandom (fun _ => 1) .AES_KEY128 .ECB).1.initVector i = 0 := by
  refine ⟨rfl, ?_, fun i => rfl⟩
  simp [AESKey.newRandom]

/-- C6 (amended): for `AES_KEY128` and `AES_KEY256`, every random source and every
mode, the generating constructor makes exactly one request, of `getKeyLength()`
(16 resp. 32) random bytes into the key material, and the first 16 resp. 32 key
bytes are the bytes the source delivered; for no key type does it request bytes
into the initialisation vector, which stays all zero. -/
theorem C6_newRandom_requests (rnd : Nat → Byte) (mode : BlockCipherMode) :
    ((AESKey.newRandom rnd .AES_KEY128 mode).2 = [⟨.key, 16⟩] ∧
        (AESKey.newRandom rnd .AES_KEY128 mode).1.getKeyLength = 16 ∧
        ∀ i : Fin 32, i.val < 16 → (AESKey.newRandom rnd .AES_KEY128 mode).1.getKey i = rnd i.val) ∧
      ((AESKey.newRandom rnd .AES_KEY256 mode).2 = [⟨.key, 32⟩] ∧
        (AESKey.newRandom rnd .AES_KEY256 mode).1.getKeyLength = 32 ∧
        ∀ i : Fin 32, (AESKey.newRandom rnd .AES_KEY256 mode).1.getKey i = rnd i.val) ∧
      (∀ (t : AESKeyType) (c : RandCall), c ∈ (AESKey.newRandom rnd t mode).2 → c.target = .key) ∧
      ∀ (t : AESKeyType) (i : Fin 32), (AESKey.newRandom rnd t mode).1.initVector i = 0 := by
  refine ⟨⟨rfl, rfl, ?_⟩, ⟨rfl, rfl, ?_⟩, ?_, ?_⟩
  · intro i hi
    simp only [AESKey.newRandom, AESKey.getKey, generateRandomSequence, if_pos hi]
  · intro i
    simp only [AESKey.newRandom, AESKey.getKey, generateRandomSequence, if_pos i.isLt]
  · intro t c hc
    cases t <;> simp only [AESKey.newRandom, List.mem_singleton, List.not_mem_nil] at hc
    · rw [hc]
    · rw [hc]
  · intro t i
    cases t <;> rfl

/-- C9: in every reachable key, each byte of the 32-byte key array at an index at or
beyond `getKeyLength()` is zero; so a 128-bit key has bytes 16..31 zero and an
`AES_KEY196` key is zero throughout. -/
theorem C9_key_zero_beyond_length (k : AESKey) (h : Reachable k) :
    (∀ i : Fin 32, k.getKeyLength ≤ i.val → k.getKey i = 0) ∧
      (k.getType = .AES_KEY128 → ∀ i : Fin 32, 16 ≤ i.val → k.getKey i = 0) ∧
      (k.getType = .AES_KEY196 → ∀ i : Fin 32, k.getKey i = 0) := by
  have hinv := (reachable_invariant h).1
  refine ⟨hinv, ?_, ?_⟩
  · intro ht i hi
    apply hinv i
    simp only [AESKey.getType] at ht
    simp only [AESKey.getKeyLength, ht]
    exact hi
  · intro ht i
    apply hinv i
    simp only [AESKey.getType] at ht
    simp only [AESKey.getKeyLength, ht]
    exact Nat.zero_le _

/-- A reachable `AES_KEY196` key: built from 24 bytes `0x01`. -/
theorem reachable_example_196 : Reachable (AESKey.init .AES_KEY196) :=
  Reachable.fromData (onesBuffer 24) .AES_KEY196 _ rfl

/-- Witness for C9 at the `AES_KEY196` key built from 24 bytes `0x01`. -/
theorem C9_key_zero_beyond_length_witness :
    Reachable (AESKey.init .AES_KEY196) ∧
      ((∀ i : Fin 32, (AESKey.init .AES_KEY196).getKeyLength ≤ i.val →
          (AESKey.init .AES_KEY196).getKey i = 0) ∧
        ((AESKey.init .AES_KEY196).getType = .AES_KEY128 →
          ∀ i : Fin 32, 16 ≤ i.val → (AESKey.init .AES_KEY196).getKey i = 0) ∧
        ((AESKey.init .AES_KEY196).getType = .AES_KEY196 →
          ∀ i : Fin 32, (AESKey.init .AES_KEY196).getKey i = 0)) :=
  ⟨reachable_example_196, C9_key_zero_beyond_length _ reachable_example_196⟩

/-- C10: in every reachable key all 32 bytes of the `initVector` array are zero. -/
theorem C10_initVector_always_zero (k : AESKey) (h : Reachable k) :
    ∀ i : Fin 32, k.initVector i = 0 :=
  (reachable_invariant h).2

/-- Witness for C10 at the 256-bit key generated from the random source that
delivers `0x01` bytes. -/
theorem C10_initVector_always_zero_witness :
    Reachable (AESKey.newRandom (fun _ => 1) .AES_KEY256 .CBC).1 ∧
      ∀ i : Fin 32, (AESKey.newRandom (fun _ => 1) .AES_KEY256 .CBC).1.initVector i = 0 :=
  ⟨Reachable.random _ _ _, C10_initVector_always_zero _ (Reachable.random _ _ _)⟩

/-! ## Theorems about the round engine -/

/-- A property of all bytes follows from its 256 instances. -/
theorem byte_forall {P : Byte → Prop} (h : ∀ i : Fin 256, P (BitVec.ofFin i)) :
    ∀ x : Byte, P x :=
  fun x => h x.toFin

theorem byte_xor_cancel_right (a b : Byte) : a ^^^ b ^^^ b = a := by
  rw [BitVec.xor_assoc, BitVec.xor_self, BitVec.xor_zero]

theorem byte_xor_cancel_left (a b : Byte) : a ^^^ (a ^^^ b) = b := by
  rw [← BitVec.xor_assoc, BitVec.xor_self, BitVec.zero_xor]

set_option maxRecDepth 100000 in
/-- The inverse S-box undoes the S-box, on each of the 256 bytes. -/
theorem invSbox_sbox : ∀ x : Byte, invSbox (sbox x) = x := by
  apply byte_forall
  decide

/-- Doubling in the field is linear over XOR. -/
theorem xtime_xor (a b : Byte) : xtime (a ^^^ b) = xtime a ^^^ xtime b := by
  unfold xtime
  rw [BitVec.shiftLeft_xor_distrib, BitVec.msb_xor]
  cases a.msb <;> cases b.msb
  · simp
  · simp only [Bool.false_xor, Bool.false_eq_true, ↓reduceIte, BitVec.xor_zero]
    ac_rfl
  · simp only [Bool.xor_false, Bool.false_eq_true, ↓reduceIte, BitVec.xor_zero]
    ac_rfl
  · simp only [Bool.xor_self, Bool.false_eq_true, ↓reduceIte, BitVec.xor_zero]
    rw [show a <<< 1 ^^^ 27#8 ^^^ (b <<< 1 ^^^ 27#8)
        = 27#8 ^^^ (27#8 ^^^ (a <<< 1 ^^^ b <<< 1)) by ac_rfl, byte_xor_cancel_left]

theorem gmulAux_xor (n : Nat) (c a a' acc acc' : Byte) :
    gmulAux n c (a ^^^ a') (acc ^^^ acc') = gmulAux n c a acc ^^^ gmulAux n c a' acc' := by
  induction n generalizing c a a' acc acc' with
  | zero => rfl
  | succ n ih =>
    simp only [gmulAux]
    rw [xtime_xor]
    cases c.getLsbD 0
    · simp only [Bool.false_eq_true, ↓reduceIte]
      exact ih _ _ _ _ _
    · simp only [↓reduceIte]
      rw [show acc ^^^ acc' ^^^ (a ^^^ a') = (acc ^^^ a) ^^^ (acc' ^^^ a') by ac_rfl]
      exact ih _ _ _ _ _

/-- Multiplication by a constant of the field is linear over XOR. -/
theorem gmul_xor (c a a' : Byte) : gmul c (a ^^^ a') = gmul c a ^^^ gmul c a' := by
  unfold gmul
  have h := gmulAux_xor 8 c a a' 0 0
  rwa [BitVec.xor_self] at h

set_option maxRecDepth 100000 in
theorem mix_coeff_diag :
    ∀ x : Byte, gmul 14 (gmul 2 x) ^^^ gmul 11 x ^^^ gmul 13 x ^^^ gmul 9 (gmul 3 x) = x := by
  apply byte_forall
  decide

set_option maxRecDepth 100000 in
theorem mix_coeff_one :
    ∀ x : Byte, gmul 14 (gmul 3 x) ^^^ gmul 11 (gmul 2 x) ^^^ gmul 13 x ^^^ gmul 9 x = 0 := by
  apply byte_forall
  decide

set_option maxRecDepth 100000 in
theorem mix_coeff_two :
    ∀ x : Byte, gmul 14 x ^^^ gmul 11 (gmul 3 x) ^^^ gmul 13 (gmul 2 x) ^^^ gmul 9 x = 0 := by
  apply byte_forall
  decide

set_option maxRecDepth 100000 in
theorem mix_coeff_three :
    ∀ x : Byte, gmul 14 x ^^^ gmul 11 x ^^^ gmul 13 (gmul 3 x) ^^^ gmul 9 (gmul 2 x) = 0 := by
  apply byte_forall
  decide

/-- One row of the product of the InvMixColumns and MixColumns matrices. -/
theorem inv_mix_row (x0 x1 x2 x3 : Byte) :
    gmul 14 (gmul 2 x0 ^^^ gmul 3 x1 ^^^ x2 ^^^ x3) ^^^
      gmul 11 (gmul 2 x1 ^^^ gmul 3 x2 ^^^ x3 ^^^ x0) ^^^
      gmul 13 (gmul 2 x2 ^^^ gmul 3 x3 ^^^ x0 ^^^ x1) ^^^
      gmul 9 (gmul 2 x3 ^^^ gmul 3 x0 ^^^ x1 ^^^ x2) = x0 := by
  simp only [gmul_xor]
  have h0 := mix_coeff_diag x0
  have h1 := mix_coeff_one x1
  have h2 := mix_coeff_two x2
  have h3 := mix_coeff_three x3
  calc _ = (gmul 14 (gmul 2 x0) ^^^ gmul 11 x0 ^^^ gmul 13 x0 ^^^ gmul 9 (gmul 3 x0)) ^^^
          ((gmul 14 (gmul 3 x1) ^^^ gmul 11 (gmul 2 x1) ^^^ gmul 13 x1 ^^^ gmul 9 x1) ^^^
          ((gmul 14 x2 ^^^ gmul 11 (gmul 3 x2) ^^^ gmul 13 (gmul 2 x2) ^^^ gmul 9 x2) ^^^
          (gmul 14 x3 ^^^ gmul 11 x3 ^^^ gmul 13 (gmul 3 x3) ^^^ gmul 9 (gmul 2 x3)))) := by
        ac_rfl
    _ = x0 := by rw [h0, h1, h2, h3]; simp

theorem invMixColumn_mixColumn (c : Column) : invMixColumn (mixColumn c) = c := by
  cases c
  simp only [invMixColumn, mixColumn, inv_mix_row]

theorem invMixColumns_mixColumns (s : Block) : invMixColumns (mixColumns s) = s := by
  cases s
  simp only [invMixColumns, mixColumns, invMixColumn_mixColumn]

theorem invShiftRows_shiftRows (s : Block) : invShiftRows (shiftRows s) = s := by
  rcases s with ⟨⟨_, _, _, _⟩, ⟨_, _, _, _⟩, ⟨_, _, _, _⟩, ⟨_, _, _, _⟩⟩
  rfl

theorem invSubBytes_subBytes (s : Block) : invSubBytes (subBytes s) = s := by
  rcases s with ⟨⟨_, _, _, _⟩, ⟨_, _, _, _⟩, ⟨_, _, _, _⟩, ⟨_, _, _, _⟩⟩
  simp only [invSubBytes, subBytes, Block.map, Column.map, invSbox_sbox]

theorem block_xor_cancel (s k : Block) : (s.xor k).xor k = s := by
  rcases s with ⟨⟨_, _, _, _⟩, ⟨_, _, _, _⟩, ⟨_, _, _, _⟩, ⟨_, _, _, _⟩⟩
  rcases k with ⟨⟨_, _, _, _⟩, ⟨_, _, _, _⟩, ⟨_, _, _, _⟩, ⟨_, _, _, _⟩⟩
  simp only [Block.xor, Column.xor, byte_xor_cancel_right]

theorem decryptRounds_encryptRounds (ks : List Block) (s : Block) :
    decryptRounds (encryptRounds s ks) ks = s := by
  induction ks generalizing s with
  | nil => rfl
  | cons k ks ih =>
    cases ks with
    | nil =>
      simp only [encryptRounds, decryptRounds, addRoundKey, block_xor_cancel,
        invShiftRows_shiftRows, invSubBytes_subBytes]
    | cons k' ks =>
      simp only [encryptRounds, decryptRounds]
      rw [ih]
      simp only [addRoundKey, block_xor_cancel, invMixColumns_mixColumns,
        invShiftRows_shiftRows, invSubBytes_subBytes]

/-- The block round trip of section 4.3: `decryptBlock (encryptBlock b s) s = b` for
every block and every schedule. -/
theorem decryptBlock_encryptBlock (b : Block) (schedule : List Block) :
    decryptBlock (encryptBlock b schedule) schedule = b := by
  cases schedule with
  | nil => rfl
  | cons k0 ks =>
    simp only [encryptBlock, decryptBlock, decryptRounds_encryptRounds, addRoundKey,
      block_xor_cancel]

theorem ecb_roundtrip (schedule : List Block) (bs : List Block) :
    (bs.map (fun b => encryptBlock b schedule)).map (fun b => decryptBlock b schedule) = bs := by
  induction bs with
  | nil => rfl
  | cons b bs ih =>
    simp only [List.map_cons, decryptBlock_encryptBlock, List.cons.injEq, true_and]
    exact ih

theorem cbc_roundtrip (schedule : List Block) (bs : List Block) (prev : Block) :
    cbcDecrypt schedule prev (cbcEncrypt schedule prev bs) = bs := by
  induction bs generalizing prev with
  | nil => rfl
  | cons b bs ih =>
    simp only [cbcEncrypt, cbcDecrypt, decryptBlock_encryptBlock, block_xor_cancel, ih]

theorem length_cbcEncrypt (schedule : List Block) (bs : List Block) (prev : Block) :
    (cbcEncrypt schedule prev bs).length = bs.length := by
  induction bs generalizing prev with
  | nil => rfl
  | cons b bs ih => simp only [cbcEncrypt, List.length_cons, ih]

/-! ## Theorems about the cipher engine -/

theorem Block.length_toList (b : Block) : b.toList.length = 16 := rfl

theorem Block.ofList_toList_append (b : Block) (rest : List Byte) :
    Block.ofList (b.toList ++ rest) = b := by
  rcases b with ⟨⟨_, _, _, _⟩, ⟨_, _, _, _⟩, ⟨_, _, _, _⟩, ⟨_, _, _, _⟩⟩
  rfl

theorem Block.drop_toList_append (b : Block) (rest : List Byte) :
    (b.toList ++ rest).drop 16 = rest := by
  rcases b with ⟨⟨_, _, _, _⟩, ⟨_, _, _, _⟩, ⟨_, _, _, _⟩, ⟨_, _, _, _⟩⟩
  rfl

theorem exists_cons_of_succ_le_length {α : Type} (n : Nat) (l : List α) (h : n + 1 ≤ l.length) :
    ∃ a rest, l = a :: rest ∧ n ≤ rest.length := by
  cases l with
  | nil => simp at h
  | cons a rest => exact ⟨a, rest, rfl, by simpa using h⟩

theorem Block.toList_ofList (l : List Byte) (h : 16 ≤ l.length) :
    (Block.ofList l).toList = l.take 16 := by
  obtain ⟨a0, l0, rfl, h0⟩ := exists_cons_of_succ_le_length 15 l h
  obtain ⟨a1, l1, rfl, h1⟩ := exists_cons_of_succ_le_length 14 l0 h0
  obtain ⟨a2, l2, rfl, h2⟩ := exists_cons_of_succ_le_length 13 l1 h1
  obtain ⟨a3, l3, rfl, h3⟩ := exists_cons_of_succ_le_length 12 l2 h2
  obtain ⟨a4, l4, rfl, h4⟩ := exists_cons_of_succ_le_length 11 l3 h3
  obtain ⟨a5, l5, rfl, h5⟩ := exists_cons_of_succ_le_length 10 l4 h4
  obtain ⟨a6, l6, rfl, h6⟩ := exists_cons_of_succ_le_length 9 l5 h5
  obtain ⟨a7, l7, rfl, h7⟩ := exists_cons_of_succ_le_length 8 l6 h6
  obtain ⟨a8, l8, rfl, h8⟩ := exists_cons_of_succ_le_length 7 l7 h7
  obtain ⟨a9, l9, rfl, h9⟩ := exists_cons_of_succ_le_length 6 l8 h8
  obtain ⟨a10, l10, rfl, h10⟩ := exists_cons_of_succ_le_length 5 l9 h9
  obtain ⟨a11, l11, rfl, h11⟩ := exists_cons_of_succ_le_length 4 l10 h10
  obtain ⟨a12, l12, rfl, h12⟩ := exists_cons_of_succ_le_length 3 l11 h11
  obtain ⟨a13, l13, rfl, h13⟩ := exists_cons_of_succ_le_length 2 l12 h12
  obtain ⟨a14, l14, rfl, h14⟩ := exists_cons_of_succ_le_length 1 l13 h13
  obtain ⟨a15, l15, rfl, h15⟩ := exists_cons_of_succ_le_length 0 l14 h14
  rfl

theorem length_toBlocks (n : Nat) (l : List Byte) : (toBlocks n l).length = n := by
  induction n generalizing l with
  | zero => rfl
  | succ n ih => simp only [toBlocks, List.length_cons, ih]

theorem length_fromBlocks (bs : List Block) : (fromBlocks bs).length = 16 * bs.length := by
  induction bs with
  | nil => rfl
  | cons b bs ih =>
    simp only [fromBlocks, List.length_append, Block.length_toList, ih, List.length_cons]
    omega

/-- Splitting the bytes of a sequence of blocks gives the blocks back. -/
theorem toBlocks_fromBlocks (bs : List Block) : toBlocks bs.length (fromBlocks bs) = bs := by
  induction bs with
  | nil => rfl
  | cons b bs ih =>
    simp only [fromBlocks, List.length_cons, toBlocks, Block.ofList_toList_append,
      Block.drop_toList_append, ih]

/-- Assembling the blocks of a buffer of `16 * n` bytes gives the buffer back. -/
theorem fromBlocks_toBlocks (n : Nat) (l : List Byte) (h : l.length = 16 * n) :
    fromBlocks (toBlocks n l) = l := by
  induction n generalizing l with
  | zero =>
    have : l = [] := List.length_eq_zero.mp (by omega)
    subst this
    rfl
  | succ n ih =>
    simp only [toBlocks, fromBlocks]
    rw [Block.toList_ofList l (by omega), ih (l.drop 16) (by rw [List.length_drop]; omega),
      List.take_append_drop]

theorem padLength_pos (n : Nat) : 1 ≤ padLength n ∧ padLength n ≤ 16 := by
  unfold padLength
  omega

theorem length_pad (p : List Byte) : (pad p).length = 16 * (p.length / 16 + 1) := by
  simp only [pad, List.length_append, List.length_replicate, padLength]
  omega

/-- Stripping the padding of a padded text returns the text. -/
theorem unpad_pad (p : List Byte) : unpad (pad p) = .ok p := by
  obtain ⟨h1, h16⟩ := padLength_pos p.length
  have hv : (BitVec.ofNat 8 (padLength p.length)).toNat = padLength p.length := by
    simp only [BitVec.toNat_ofNat]
    omega
  have hlast : (pad p).getLast? = some (BitVec.ofNat 8 (padLength p.length)) := by
    unfold pad
    obtain ⟨m, hm⟩ : ∃ m, padLength p.length = m + 1 := ⟨padLength p.length - 1, by omega⟩
    rw [hm, List.replicate_succ', ← List.append_assoc, List.getLast?_concat]
  have hlen : (pad p).length = p.length + padLength p.length := by
    simp only [pad, List.length_append, List.length_replicate]
  unfold unpad
  rw [hlast]
  simp only [hv, hlen]
  rw [if_neg (by omega)]
  have hsub : p.length + padLength p.length - padLength p.length = p.length := by omega
  rw [hsub]
  have hdrop : (pad p).drop p.length =
      List.replicate (padLength p.length) (BitVec.ofNat 8 (padLength p.length)) := by
    unfold pad
    exact List.drop_left' rfl
  have htake : (pad p).take p.length = p := by
    unfold pad
    exact List.take_left' rfl
  rw [hdrop, htake, if_pos]
  simp [List.all_eq_true]

/-- The length of the ciphertext: the padded length, a positive multiple of 16. -/
theorem length_encyrptText (e : AESEngine) (p : List Byte) :
    (e.encyrptText p).length = 16 * (p.length / 16 + 1) := by
  have hdiv : (pad p).length / 16 = p.length / 16 + 1 := by
    rw [length_pad]; omega
  unfold AESEngine.encyrptText
  cases e.key.spec.mode
  · simp only [length_fromBlocks, List.length_map, length_toBlocks, hdiv]
  · simp only [length_fromBlocks, length_cbcEncrypt, length_toBlocks, hdiv]

/-- The round trip for plaintexts of every length. -/
theorem decryptText_encyrptText (e : AESEngine) (p : List Byte) :
    e.decryptText (e.encyrptText p) = .ok p := by
  have hlen := length_encyrptText e p
  have hdiv : (pad p).length / 16 = p.length / 16 + 1 := by
    rw [length_pad]; omega
  have hpad : fromBlocks (toBlocks (p.length / 16 + 1) (pad p)) = pad p :=
    fromBlocks_toBlocks _ _ (length_pad p)
  unfold AESEngine.decryptText
  rw [if_neg (by rw [hlen]; omega)]
  have hn : (e.encyrptText p).length / 16 = p.length / 16 + 1 := by
    rw [hlen]; omega
  simp only [hn]
  unfold AESEngine.encyrptText
  simp only [hdiv]
  cases e.key.spec.mode
  · simp only
    have h := toBlocks_fromBlocks
      ((toBlocks (p.length / 16 + 1) (pad p)).map
        (fun b => encryptBlock b (expandKey e.key.spec e.key.keyMaterial)))
    rw [List.length_map, length_toBlocks] at h
    rw [h, ecb_roundtrip, hpad, unpad_pad]
  · simp only
    have h := toBlocks_fromBlocks
      (cbcEncrypt (expandKey e.key.spec e.key.keyMaterial) (Block.ofList e.key.iv)
        (toBlocks (p.length / 16 + 1) (pad p)))
    rw [length_cbcEncrypt, length_toBlocks] at h
    rw [h, cbc_roundtrip, hpad, unpad_pad]

set_option maxRecDepth 100000 in
/-- The model reproduces the published example vectors of the standard (the concrete
scenario of section 8): with the keys `000102...`, of 16, 24 and 32 bytes, the block
`00112233445566778899aabbccddeeff` encrypts to `69c4e0d86a7b0430d8cdb78070b4c55a`,
`dda97ca4864cdfe06eaf70a0ec0d7191` and `8ea2b7ca516745bfeafc49904b496089`. -/
theorem encryptBlock_examples :
    encryptBlock examplePlainBlock (expandKey ⟨.AES_KEY128, .ECB⟩ (countingBytes 16)) =
        ⟨⟨0x69, 0xc4, 0xe0, 0xd8⟩, ⟨0x6a, 0x7b, 0x04, 0x30⟩,
         ⟨0xd8, 0xcd, 0xb7, 0x80⟩, ⟨0x70, 0xb4, 0xc5, 0x5a⟩⟩ ∧
      encryptBlock examplePlainBlock (expandKey ⟨.AES_KEY196, .ECB⟩ (countingBytes 24)) =
        ⟨⟨0xdd, 0xa9, 0x7c, 0xa4⟩, ⟨0x86, 0x4c, 0xdf, 0xe0⟩,
         ⟨0x6e, 0xaf, 0x70, 0xa0⟩, ⟨0xec, 0x0d, 0x71, 0x91⟩⟩ ∧
      encryptBlock examplePlainBlock (expandKey ⟨.AES_KEY256, .ECB⟩ (countingBytes 32)) =
        ⟨⟨0x8e, 0xa2, 0xb7, 0xca⟩, ⟨0x51, 0x67, 0x45, 0xbf⟩,
         ⟨0xea, 0xfc, 0x49, 0x90⟩, ⟨0x4b, 0x49, 0x60, 0x89⟩⟩ := by
  refine ⟨?_, ?_, ?_⟩ <;> decide

/-- The schedule has `rounds + 1` round keys: 11, 13 or 15. -/
theorem length_expandKey (spec : KeySpec) (keyMaterial : List Byte) :
    (expandKey spec keyMaterial).length = spec.rounds + 1 := by
  simp only [expandKey, List.length_map, List.length_range]

/-- The ciphertext is exactly as long as `getOutputTextSize` says. -/
theorem length_encyrptText_eq_getOutputTextSize (e : AESEngine) (p : List Byte) :
    ((e.encyrptText p).length : Int) = e.getOutputTextSize (p.length : Int) := by
  rw [length_encyrptText]
  simp only [AESEngine.getOutputTextSize, ceilToBlock]
  push_cast
  omega

/-- C7: for every engine (every key size, both modes, every key and initialisation
vector) and every plaintext of at most 10000 bytes, decrypting the encryption of the
plaintext under the same engine returns the plaintext. -/
theorem C7_decrypt_encrypt_roundtrip (e : AESEngine) (p : List Byte)
    (_h : p.length ≤ 10000) : e.decryptText (e.encyrptText p) = .ok p :=
  decryptText_encyrptText e p

/-- Witness for C7: the 128-bit example engine in CBC mode and the 20-byte plaintext
`00 01 ... 13`. -/
theorem C7_decrypt_encrypt_roundtrip_witness :
    (countingBytes 20).length ≤ 10000 ∧
      (exampleEngine .CBC).decryptText ((exampleEngine .CBC).encyrptText (countingBytes 20)) =
        .ok (countingBytes 20) :=
  ⟨by decide, C7_decrypt_encrypt_roundtrip _ _ (by decide)⟩

/-- C8: for every non-negative size `n`, `getOutputTextSize n` is `16 * (n / 16 + 1)`,
which is the smallest multiple of 16 strictly greater than `n`; it is 16 at 0 and 32
at 16. -/
theorem C8_getOutputTextSize (e : AESEngine) (n : Int) (_h : 0 ≤ n) :
    e.getOutputTextSize n = 16 * (n / 16 + 1) ∧
      (16 ∣ e.getOutputTextSize n ∧ n < e.getOutputTextSize n ∧
        ∀ m : Int, 16 ∣ m → n < m → e.getOutputTextSize n ≤ m) ∧
      e.getOutputTextSize 0 = 16 ∧ e.getOutputTextSize 16 = 32 := by
  have hval : e.getOutputTextSize n = 16 * (n / 16 + 1) := by
    simp only [AESEngine.getOutputTextSize, ceilToBlock]
    omega
  refine ⟨hval, ⟨?_, ?_, ?_⟩, rfl, rfl⟩
  · rw [hval]
    exact Dvd.intro _ rfl
  · rw [hval]
    omega
  · intro m hm hlt
    rw [hval]
    obtain ⟨q, rfl⟩ := hm
    omega

/-- Witness for C8 at the size 16, on the example engine in ECB mode. -/
theorem C8_getOutputTextSize_witness :
    (0 : Int) ≤ 16 ∧
      ((exampleEngine .ECB).getOutputTextSize 16 = 16 * (16 / 16 + 1) ∧
        (16 ∣ (exampleEngine .ECB).getOutputTextSize 16 ∧
          16 < (exampleEngine .ECB).getOutputTextSize 16 ∧
          ∀ m : Int, 16 ∣ m → 16 < m → (exampleEngine .ECB).getOutputTextSize 16 ≤ m) ∧
        (exampleEngine .ECB).getOutputTextSize 0 = 16 ∧
        (exampleEngine .ECB).getOutputTextSize 16 = 32) :=
  ⟨by decide, C8_getOutputTextSize (exampleEngine .ECB) 16 (by decide)⟩

end CPPEncrypt
